import Mathlib

/-!
# Monoid — Knowledge Graph & Hybrid Retrieval Engine: verification development

Shallow embedding of the Monoid repository (Next.js frontend over a Supabase
mirror, plus the engine described by the specification) and proofs of the
frozen claims about it.

Conventions:
* Machine integers are modelled as `Nat` with explicit reduction `% 2^32`
  where 32-bit overflow matters (the SHA-256 compression function).
* Timestamps (`TIMESTAMPTZ` columns, `Date.toISOString()` values) are
  modelled as rational time points `ℚ`; their ordering is chronological.
* Fallible or nullable values are `Option`.
* The pgvector distance operator `<=>` is an external collaborator of the
  SQL schema; definitions that use it take the distance function as an
  explicit parameter.
-/

/-! ## SHA-256 (FIPS 180-4), as invoked by `computeChecksum` in
`frontend/src/lib/utils.ts` via `crypto.subtle.digest('SHA-256', ...)`.
Bytes are `Nat` values `< 256`; words are `Nat` values `< 2^32`. -/

namespace Sha256

/-- Truncate to a 32-bit word. -/
def w32 (n : Nat) : Nat := n % 4294967296

/-- Right rotation of a 32-bit word by `n` bits. -/
def rotr (n x : Nat) : Nat := w32 ((x >>> n) ||| (x <<< (32 - n)))

/-- Bitwise complement of a 32-bit word. -/
def wnot (x : Nat) : Nat := x ^^^ 4294967295

/-- The 64 round constants `K` of SHA-256. -/
def roundK : List Nat :=
  [1116352408, 1899447441, 3049323471, 3921009573, 961987163,
   1508970993, 2453635748, 2870763221, 3624381080, 310598401,
   607225278, 1426881987, 1925078388, 2162078206, 2614888103,
   3248222580, 3835390401, 4022224774, 264347078, 604807628,
   770255983, 1249150122, 1555081692, 1996064986, 2554220882,
   2821834349, 2952996808, 3210313671, 3336571891, 3584528711,
   113926993, 338241895, 666307205, 773529912, 1294757372,
   1396182291, 1695183700, 1986661051, 2177026350, 2456956037,
   2730485921, 2820302411, 3259730800, 3345764771, 3516065817,
   3600352804, 4094571909, 275423344, 430227734, 506948616,
   659060556, 883997877, 958139571, 1322822218, 1537002063,
   1747873779, 1955562222, 2024104815, 2227730452, 2361852424,
   2428436474, 2756734187, 3204031479, 3329325298]

/-- The eight initial hash words `H⁽⁰⁾`. -/
structure Hash8 where
  a : Nat
  b : Nat
  c : Nat
  d : Nat
  e : Nat
  f : Nat
  g : Nat
  h : Nat

def initH : Hash8 :=
  ⟨1779033703, 3144134277, 1013904242, 2773480762,
   1359893119, 2600822924, 528734635, 1541459225⟩

/-- Big-endian bytes (most significant first) of the 64-bit message length. -/
def lenBytes (bitLen : Nat) : List Nat :=
  (List.range 8).map (fun i => (bitLen >>> (8 * (7 - i))) % 256)

/-- Pad a byte message to a multiple of 64 bytes: `0x80`, zeros, then the
message bit length as 8 big-endian bytes. -/
def pad (msg : List Nat) : List Nat :=
  let zeros := (64 - ((msg.length + 9) % 64)) % 64
  msg ++ 128 :: List.replicate zeros 0 ++ lenBytes (8 * msg.length)

/-- Split a padded message into 64-byte blocks. -/
def blocks (l : List Nat) : List (List Nat) :=
  (List.range (l.length / 64)).map (fun i => (l.drop (64 * i)).take 64)

/-- The 16 initial 32-bit words of a 64-byte block, big-endian. -/
def blockWords (block : List Nat) : List Nat :=
  (List.range 16).map (fun i =>
    (block.getD (4 * i) 0) * 16777216 + (block.getD (4 * i + 1) 0) * 65536 +
    (block.getD (4 * i + 2) 0) * 256 + block.getD (4 * i + 3) 0)

/-- Message schedule: extend 16 words to 64 via `σ₀`/`σ₁`. -/
def msgSchedule (block : List Nat) : List Nat :=
  let ws := blockWords block
  (List.range 64).foldl
    (fun acc t =>
      if t < 16 then acc ++ [ws.getD t 0]
      else
        let s0 := (rotr 7 (acc.getD (t - 15) 0)) ^^^ (rotr 18 (acc.getD (t - 15) 0)) ^^^
          ((acc.getD (t - 15) 0) >>> 3)
        let s1 := (rotr 17 (acc.getD (t - 2) 0)) ^^^ (rotr 19 (acc.getD (t - 2) 0)) ^^^
          ((acc.getD (t - 2) 0) >>> 10)
        acc ++ [w32 (acc.getD (t - 16) 0 + s0 + acc.getD (t - 7) 0 + s1)])
    []

/-- One round of the SHA-256 compression function. -/
def round (s : Hash8) (kw : Nat × Nat) : Hash8 :=
  let S1 := (rotr 6 s.e) ^^^ (rotr 11 s.e) ^^^ (rotr 25 s.e)
  let ch := (s.e &&& s.f) ^^^ ((wnot s.e) &&& s.g)
  let temp1 := w32 (s.h + S1 + ch + kw.1 + kw.2)
  let S0 := (rotr 2 s.a) ^^^ (rotr 13 s.a) ^^^ (rotr 22 s.a)
  let maj := (s.a &&& s.b) ^^^ (s.a &&& s.c) ^^^ (s.b &&& s.c)
  let temp2 := w32 (S0 + maj)
  ⟨w32 (temp1 + temp2), s.a, s.b, s.c, w32 (s.d + temp1), s.e, s.f, s.g⟩

/-- Process one 64-byte block. -/
def processBlock (h0 : Hash8) (block : List Nat) : Hash8 :=
  let s := (roundK.zip (msgSchedule block)).foldl round h0
  ⟨w32 (h0.a + s.a), w32 (h0.b + s.b), w32 (h0.c + s.c), w32 (h0.d + s.d),
   w32 (h0.e + s.e), w32 (h0.f + s.f), w32 (h0.g + s.g), w32 (h0.h + s.h)⟩

/-- Big-endian bytes of one 32-bit word. -/
def wordBytes (w : Nat) : List Nat :=
  [(w >>> 24) % 256, (w >>> 16) % 256, (w >>> 8) % 256, w % 256]

/-- SHA-256 digest (32 bytes) of a byte message. -/
def sha256 (msg : List Nat) : List Nat :=
  let hs := (blocks (pad msg)).foldl processBlock initH
  wordBytes hs.a ++ wordBytes hs.b ++ wordBytes hs.c ++ wordBytes hs.d ++
  wordBytes hs.e ++ wordBytes hs.f ++ wordBytes hs.g ++ wordBytes hs.h

/-- Lowercase hex rendering of one byte, as `b.toString(16).padStart(2, '0')`. -/
def hexOfByte (b : Nat) : String :=
  String.mk [Nat.digitChar (b / 16), Nat.digitChar (b % 16)]

/-- Lowercase hex digest string of a byte message. -/
def sha256Hex (msg : List Nat) : String :=
  String.join ((sha256 msg).map hexOfByte)

end Sha256

/-! ## Frontend data model and operations

Embeds `frontend/src/types/note.ts`, `frontend/src/lib/utils.ts`
(`generateNoteId`, `computeChecksum`) and `frontend/src/lib/notes.ts`.
The Supabase `notes` table is a `List Note`; each query helper is the
function the PostgREST call denotes on that table. -/

namespace Frontend

/-- `NoteType` from `types/note.ts`. -/
inductive NoteType where
  | note
  | summary
  | synthesis
  | quiz
  | template
deriving DecidableEq, Repr

/-- The `Note` row shape from `types/note.ts` / the `notes` table of
`schema.sql`.  Timestamps are rational time points. -/
structure Note where
  id : String
  type : NoteType
  title : Option String
  content : String
  created_at : ℚ
  updated_at : ℚ
  deleted_at : Option ℚ
  version : Nat
  checksum : String
  links : List String
  provenance : Option String
  enhanced : Nat
deriving DecidableEq, Repr

/-- A wall-clock reading of `new Date()`: calendar components plus the
millisecond field that `generateNoteId` never reads.  `month` is 1-based
(the source uses `getMonth() + 1`). -/
structure DateTime where
  year : Nat
  month : Nat
  day : Nat
  hour : Nat
  minute : Nat
  second : Nat
  ms : Nat
deriving DecidableEq, Repr

/-- Strict chronological order on wall-clock readings: lexicographic on
(year, month, day, hour, minute, second, millisecond). -/
def wallClockLt (a b : DateTime) : Prop :=
  a.year < b.year ∨ (a.year = b.year ∧
    (a.month < b.month ∨ (a.month = b.month ∧
      (a.day < b.day ∨ (a.day = b.day ∧
        (a.hour < b.hour ∨ (a.hour = b.hour ∧
          (a.minute < b.minute ∨ (a.minute = b.minute ∧
            (a.second < b.second ∨ (a.second = b.second ∧
              a.ms < b.ms)))))))))))

/-- Strict order on wall-clock readings truncated to whole seconds
(the granularity `generateNoteId` can see). -/
def secondTruncLt (a b : DateTime) : Prop :=
  a.year < b.year ∨ (a.year = b.year ∧
    (a.month < b.month ∨ (a.month = b.month ∧
      (a.day < b.day ∨ (a.day = b.day ∧
        (a.hour < b.hour ∨ (a.hour = b.hour ∧
          (a.minute < b.minute ∨ (a.minute = b.minute ∧
            a.second < b.second)))))))))

/-- `String(n).padStart(2, '0')` for a natural number `n`. -/
def pad2 (n : Nat) : String :=
  if n < 10 then "0" ++ toString n else toString n

/-- Decimal digit characters of a number, most significant first (the
reference numeral used to reason about `toString` on `Nat`). -/
def decDigits (n : Nat) : List Char :=
  if n < 10 then [Nat.digitChar n]
  else decDigits (n / 10) ++ [Nat.digitChar (n % 10)]
termination_by n
decreasing_by exact Nat.div_lt_self (by omega) (by omega)

/-- `generateNoteId` from `utils.ts`: `YYYYMMDDhhmmss` built from the
wall-clock components; the millisecond field is ignored. -/
def generateNoteId (d : DateTime) : String :=
  toString d.year ++ pad2 d.month ++ pad2 d.day ++
    pad2 d.hour ++ pad2 d.minute ++ pad2 d.second

/-- `computeChecksum` from `utils.ts`: lowercase hex SHA-256 of the UTF-8
bytes of `content`, truncated to the first 32 characters. -/
def computeChecksum (content : String) : String :=
  (Sha256.sha256Hex (content.toUTF8.toList.map (fun b => b.toNat))).take 32

/-- `NoteCreate` from `types/note.ts`.  The optional TS fields are
`Option`s; the empty string is falsy in TS, so `input.title || null`
is modelled where `createNote` consumes it. -/
structure NoteCreate where
  title : Option String
  content : String
  type : Option NoteType
deriving DecidableEq, Repr

/-- JS falsiness of an optional string: `undefined`, `null` and `""`
are falsy. -/
def strFalsy : Option String → Bool
  | none => true
  | some s => s = ""

/-- The row `createNote` in `notes.ts` inserts, given the generated id and
the current time (`new Date().toISOString()`). -/
def createNote (input : NoteCreate) (id : String) (now : ℚ) : Note :=
  { id := id
    type := input.type.getD NoteType.note
    title := if strFalsy input.title then none else input.title
    content := input.content
    created_at := now
    updated_at := now
    deleted_at := none
    version := 1
    checksum := computeChecksum input.content
    links := []
    provenance := none
    enhanced := 0 }

/-- `deleteNote` in `notes.ts`: `UPDATE notes SET deleted_at = now WHERE
id = id` — a pure soft delete over the table. -/
def deleteNote (id : String) (now : ℚ) (table : List Note) : List Note :=
  table.map (fun n => if n.id = id then { n with deleted_at := some now } else n)

/-- Comparator for `ORDER BY created_at DESC`. -/
def createdDescLE (a b : Note) : Bool := decide (b.created_at ≤ a.created_at)

/-- Comparator for `ORDER BY updated_at DESC`. -/
def updatedDescLE (a b : Note) : Bool := decide (b.updated_at ≤ a.updated_at)

/-- `getAllNotes` in `notes.ts`: all rows with `deleted_at IS NULL`,
ordered by `created_at` descending. -/
def getAllNotes (table : List Note) : List Note :=
  (table.filter (fun n => n.deleted_at.isNone)).mergeSort createdDescLE

/-- `getNotesByType` in `notes.ts`: rows of one `type` with
`deleted_at IS NULL`, ordered by `created_at` descending. -/
def getNotesByType (t : NoteType) (table : List Note) : List Note :=
  (table.filter (fun n => n.type = t && n.deleted_at.isNone)).mergeSort createdDescLE

/-- `ILIKE '%pat%'`: case-insensitive substring match. -/
def ilikeContains (pat s : String) : Bool :=
  decide (pat.toLower.toList <:+: s.toLower.toList)

/-- The `.or('title.ilike.%q%,content.ilike.%q%')` filter of `searchNotes`;
a `NULL` title never matches. -/
def searchMatch (q : String) (n : Note) : Bool :=
  (match n.title with
   | some t => ilikeContains q t
   | none => false) || ilikeContains q n.content

/-- `searchNotes` in `notes.ts`: live rows whose title or content matches
the query case-insensitively, ordered by `updated_at` descending. -/
def searchNotes (q : String) (table : List Note) : List Note :=
  (table.filter (fun n => n.deleted_at.isNone && searchMatch q n)).mergeSort updatedDescLE

end Frontend

/-! ## Supabase schema: `semantic_search` (schema.sql)

`SELECT n.id, n.title, n.content, 1 - (e.vector <=> q) FROM embeddings e
JOIN notes n ON e.note_id = n.id WHERE n.deleted_at IS NULL AND
1 - (e.vector <=> q) > match_threshold ORDER BY e.vector <=> q LIMIT
match_count`.  The pgvector operator `<=>` is an external collaborator and
is passed in as `dist`. -/

namespace Schema

open Frontend

/-- A row of the `embeddings` table. -/
structure EmbRow where
  note_id : String
  model : String
  dimensions : Nat
  vector : List ℚ
deriving DecidableEq, Repr

/-- A row of `semantic_search`'s result table. -/
structure SemanticHit where
  note_id : String
  title : Option String
  content : String
  similarity : ℚ
deriving DecidableEq, Repr

/-- The join `embeddings e JOIN notes n ON e.note_id = n.id WHERE
n.deleted_at IS NULL`. -/
def joinLive (notes : List Note) (embeddings : List EmbRow) : List (EmbRow × Note) :=
  embeddings.flatMap (fun e =>
    (notes.filter (fun n => n.id = e.note_id && n.deleted_at.isNone)).map (fun n => (e, n)))

/-- `ORDER BY e.vector <=> query_embedding`: ascending distance. -/
def distLE (dist : List ℚ → List ℚ → ℚ) (query_embedding : List ℚ)
    (p q : EmbRow × Note) : Bool :=
  dist p.1.vector query_embedding ≤ dist q.1.vector query_embedding

/-- The `semantic_search` SQL function over table states. -/
def semantic_search (dist : List ℚ → List ℚ → ℚ) (query_embedding : List ℚ)
    (match_threshold : ℚ) (match_count : Nat)
    (notes : List Note) (embeddings : List EmbRow) : List SemanticHit :=
  (((((joinLive notes embeddings).filter (fun p =>
      match_threshold < 1 - dist p.1.vector query_embedding)).mergeSort
      (distLE dist query_embedding)).take
      match_count).map (fun p =>
      ⟨p.2.id, p.2.title, p.2.content, 1 - dist p.1.vector query_embedding⟩))

end Schema

/-! ## The Knowledge Graph & Hybrid Retrieval Engine

The Python engine (`src/monoid/metadata/graph.py`, `indexer.py` and the
staleness state) is not among the provided source files — only its README,
design document, CLI surface and the Supabase mirror are.  The definitions
in this namespace are therefore modelled from the specification (§4.1–§4.5)
and say so in their doc comments. -/

namespace Engine

/-- Modelled from the spec (§3 Data Model): the engine's read-only view of
a note — missing `core/domain.py`.  Only the fields the modelled
operations consume are kept; the embedding is reached through the
signal-extractor parameters. -/
structure ENote where
  id : String
  tags : List String
  links : List String
  created_at : ℚ
  updated_at : ℚ
  deleted : Bool
deriving DecidableEq, Repr

/-- Modelled from the spec (§4.2): one fuser step over a
(weight, optional signal value) pair — absent signals contribute neither
value nor weight, and presence is tracked explicitly. -/
def fuseStep (acc : ℚ × ℚ × Bool) (wv : ℚ × Option ℚ) : ℚ × ℚ × Bool :=
  match wv.2 with
  | some v => (acc.1 + wv.1 * v, acc.2.1 + wv.1, true)
  | none => acc

/-- Modelled from the spec (§4.2), missing `metadata/graph.py`: the score
fuser.  Accumulates `Σ wᵢ·vᵢ` and `Σ wᵢ` over present signals only; if no
signal at all is present the pair gets no fused score (`none`) rather than
zero. -/
def fuse (wvs : List (ℚ × Option ℚ)) : Option ℚ :=
  let r := wvs.foldl fuseStep (0, 0, false)
  if r.2.2 then some (r.1 / r.2.1) else none

/-- The weighted values of the present signals (the spec's
`weight_i × value_i for present i`). -/
def presentWeighted (wvs : List (ℚ × Option ℚ)) : List ℚ :=
  wvs.filterMap (fun wv => wv.2.map (fun v => wv.1 * v))

/-- The weights of the present signals (the spec's
`weight_i for present i`). -/
def presentWeights (wvs : List (ℚ × Option ℚ)) : List ℚ :=
  wvs.filterMap (fun wv => wv.2.map (fun _ => wv.1))

/-- A weighted pairwise signal extractor: §4.1's contract "given two notes,
produce zero or one value per signal kind", paired with its §4.2 weight. -/
def PairExtractor : Type := ℚ × (ENote → ENote → Option ℚ)

/-- The (weight, optional value) rows of all signals for one note pair. -/
def pairSignals (exts : List PairExtractor) (a b : ENote) : List (ℚ × Option ℚ) :=
  exts.map (fun we => (we.1, we.2 a b))

/-- A candidate partner of a source note, before top-K truncation. -/
structure Cand where
  partner : ENote
  score : ℚ
deriving DecidableEq, Repr

/-- The non-deleted snapshot the engine operates on (§6: the note store
supplies non-deleted notes; §3 invariant). -/
def liveNotes (notes : List ENote) : List ENote :=
  notes.filter (fun n => !n.deleted)

/-- Modelled from the spec (§4.3), missing `metadata/graph.py`: the
candidate set of a source note — every other live note whose pair has at
least one present signal (a fused score) that reaches `minScore`. -/
def candsFor (exts : List PairExtractor) (minScore : ℚ)
    (live : List ENote) (n : ENote) : List Cand :=
  (live.filter (fun m => m.id ≠ n.id)).filterMap (fun m =>
    (fuse (pairSignals exts n m)).bind (fun s =>
      if minScore ≤ s then some ⟨m, s⟩ else none))

/-- Descending-score order on candidates with the §3/§4.3 deterministic
tie-break: equal scores are broken by partner identifier ascending. -/
def candLE (x y : Cand) : Bool :=
  decide (y.score < x.score ∨ (x.score = y.score ∧ x.partner.id ≤ y.partner.id))

/-- Modelled from the spec (§4.3): the top-K highest-scoring partners of a
source note, ties broken by partner identifier ascending. -/
def keptPartners (exts : List PairExtractor) (minScore : ℚ) (K : Nat)
    (live : List ENote) (n : ENote) : List Cand :=
  ((candsFor exts minScore live n).mergeSort candLE).take K

/-- The bounded graph of §3: nodes plus materialized kept (source, target)
pairs. -/
structure Graph where
  nodes : List String
  edges : List (String × String)
deriving DecidableEq, Repr

/-- Modelled from the spec (§4.3), missing `metadata/graph.py`:
`build(notes, weights, K, minScore) -> Graph`.  Deleted notes are dropped
first; each live source contributes its kept top-K (source, target)
pairs. -/
def build (notes : List ENote) (exts : List PairExtractor)
    (K : Nat) (minScore : ℚ) : Graph :=
  let live := liveNotes notes
  { nodes := live.map (fun n => n.id)
    edges := live.flatMap (fun n =>
      (keptPartners exts minScore K live n).map (fun c => (n.id, c.partner.id))) }

/-- The outgoing edges of one source node in a built graph. -/
def outgoingEdges (g : Graph) (src : String) : List (String × String) :=
  g.edges.filter (fun e => e.1 = src)

/-- A weighted query-vs-note signal extractor (§4.4: the same signal
extractors restricted to query-vs-note comparisons).  The §4.4 `mode`
selects which extractors participate, so a mode is represented by the
extractor list handed in. -/
def QueryExtractor : Type := ℚ × (ENote → Option ℚ)

/-- The (weight, optional value) rows of all query signals for one note. -/
def querySignals (qexts : List QueryExtractor) (n : ENote) : List (ℚ × Option ℚ) :=
  qexts.map (fun we => (we.1, we.2 n))

/-- §3 `SearchResult`: note identifier, fused score, and (for the ordering
contract) the note's last-modified time. -/
structure SearchResult where
  noteId : String
  score : ℚ
  updated : ℚ
deriving DecidableEq, Repr

/-- Modelled from the spec (§4.4): the scored live notes — a note with no
present signal gets no fused score and is excluded. -/
def searchCands (qexts : List QueryExtractor) (notes : List ENote) : List SearchResult :=
  (liveNotes notes).filterMap (fun n =>
    (fuse (querySignals qexts n)).map (fun s => ⟨n.id, s, n.updated_at⟩))

/-- §4.4 result order: fused score descending, ties broken by the note's
last-modified time descending (more recent first). -/
def resultLE (x y : SearchResult) : Bool :=
  decide (y.score < x.score ∨ (x.score = y.score ∧ y.updated ≤ x.updated))

/-- Modelled from the spec (§4.4), missing `metadata/indexer.py`:
`search(query, notes, mode, weights, topN)` — fused scores over live
notes, ordered by score descending with recency tie-break, truncated to
`topN`. -/
def search (qexts : List QueryExtractor) (notes : List ENote)
    (topN : Nat) : List SearchResult :=
  ((searchCands qexts notes).mergeSort resultLE).take topN

/-- An embedding as §3/§6 describe it: a dense vector versioned by model
name with an explicit dimension. -/
structure Embedding where
  model : String
  dim : Nat
  vec : List ℚ
deriving DecidableEq, Repr

/-- Componentwise dot product of two vectors (extra trailing components of
the longer vector are ignored; the extractor only uses it on matched
dimensions). -/
def dot (a b : List ℚ) : ℚ := ((a.zip b).map (fun p => p.1 * p.2)).sum

/-- Squared Euclidean norm. -/
def normSq (a : List ℚ) : ℚ := dot a a

/-- Modelled from the spec (§4.1): standard cosine similarity,
`⟨a,b⟩ / (‖a‖·‖b‖)` over the reals. -/
noncomputable def cosineSim (a b : List ℚ) : ℝ :=
  (dot a b : ℝ) / (Real.sqrt (normSq a) * Real.sqrt (normSq b))

/-- Modelled from the spec (§4.1), missing `metadata/embeddings.py`: the
`semantic-similarity` signal — absent unless both sides carry an embedding
of the same model and dimension, else the cosine rescaled to `[0,1]` by
`(cos+1)/2`. -/
noncomputable def semanticSimilarity (a b : Option Embedding) : Option ℝ :=
  match a, b with
  | some ea, some eb =>
      if ea.model = eb.model ∧ ea.dim = eb.dim then
        some ((cosineSim ea.vec eb.vec + 1) / 2)
      else none
  | _, _ => none

/-- §4.5 staleness tracker states. -/
inductive Staleness where
  | Fresh
  | Stale
deriving DecidableEq, Repr

/-- Events the §4.5 tracker observes.  A verified-equivalent incremental
rebuild must produce results identical to a full rebuild (§4.3), so a
successful rebuild event covers both; an incremental rebuild that cannot
verify equivalence leaves the tracker as it found it (it is only attempted
from `Stale`, which it leaves `Stale`). -/
inductive StalenessEvent where
  | noteCreated
  | noteEdited
  | noteDeleted
  | rebuildSucceeded
  | incrementalRebuildUnverified
deriving DecidableEq, Repr

/-- Is the event a note mutation? -/
def StalenessEvent.isMutation : StalenessEvent → Bool
  | .noteCreated => true
  | .noteEdited => true
  | .noteDeleted => true
  | _ => false

/-- Modelled from the spec (§4.5), missing engine state: the transition
function of the two-state staleness tracker. -/
def stalenessStep (s : Staleness) : StalenessEvent → Staleness
  | .noteCreated => .Stale
  | .noteEdited => .Stale
  | .noteDeleted => .Stale
  | .rebuildSucceeded => .Fresh
  | .incrementalRebuildUnverified => s

/-- The tracker state after a sequence of events. -/
def stalenessRun (s : Staleness) (events : List StalenessEvent) : Staleness :=
  events.foldl stalenessStep s

end Engine

/-! ## Helper lemmas -/

namespace Engine

theorem dot_nil_left (b : List ℚ) : dot [] b = 0 := by
  simp [dot]

theorem dot_nil_right (a : List ℚ) : dot a [] = 0 := by
  simp [dot]

theorem dot_cons (x y : ℚ) (xs ys : List ℚ) :
    dot (x :: xs) (y :: ys) = x * y + dot xs ys := by
  simp [dot]

theorem normSq_cons (x : ℚ) (xs : List ℚ) :
    normSq (x :: xs) = x * x + normSq xs := by
  unfold normSq
  rw [dot_cons]

theorem normSq_nonneg (a : List ℚ) : 0 ≤ normSq a := by
  induction a with
  | nil => simp [normSq, dot]
  | cons x xs ih =>
      rw [normSq_cons]
      nlinarith [ih, sq_nonneg x]

/-- Cauchy–Schwarz for the list dot product, in squared form. -/
theorem dot_sq_le (a : List ℚ) : ∀ b : List ℚ, (dot a b) ^ 2 ≤ normSq a * normSq b := by
  induction a with
  | nil => intro b; simp [dot, normSq]
  | cons x xs ih =>
      intro b
      cases b with
      | nil => simp [dot, normSq]
      | cons y ys =>
          have h := ih ys
          have hA : 0 ≤ normSq xs := normSq_nonneg xs
          have hB : 0 ≤ normSq ys := normSq_nonneg ys
          rw [dot_cons, normSq_cons, normSq_cons]
          set A := normSq xs with hAdef
          set B := normSq ys with hBdef
          set d := dot xs ys with hddef
          rcases hB.eq_or_lt with hB0 | hBpos
          · have hd0 : d ^ 2 = 0 := by
              apply le_antisymm _ (sq_nonneg d)
              calc d ^ 2 ≤ A * B := h
                _ = 0 := by rw [← hB0, mul_zero]
            have hd : d = 0 := sq_eq_zero_iff.mp hd0
            rw [← hB0, hd]
            nlinarith [mul_nonneg hA (sq_nonneg y)]
          · have key : B * ((x * x + A) * (y * y + B) - (x * y + d) ^ 2) =
                (x * B - y * d) ^ 2 + (y ^ 2 + B) * (A * B - d ^ 2) := by ring
            have hrhs : 0 ≤ (x * B - y * d) ^ 2 + (y ^ 2 + B) * (A * B - d ^ 2) := by
              have h1 : 0 ≤ (y ^ 2 + B) * (A * B - d ^ 2) :=
                mul_nonneg (by positivity) (by linarith)
              positivity
            have hBG : 0 ≤ B * ((x * x + A) * (y * y + B) - (x * y + d) ^ 2) := by
              rw [key]; exact hrhs
            have := (mul_nonneg_iff_of_pos_left hBpos).mp hBG
            linarith

/-- The cosine similarity always lies in `[-1, 1]`. -/
theorem cosineSim_bounds (a b : List ℚ) :
    -1 ≤ cosineSim a b ∧ cosineSim a b ≤ 1 := by
  unfold cosineSim
  set D := Real.sqrt (normSq a) * Real.sqrt (normSq b) with hD
  have hDnn : 0 ≤ D := mul_nonneg (Real.sqrt_nonneg _) (Real.sqrt_nonneg _)
  rcases hDnn.eq_or_lt with hD0 | hDpos
  · rw [← hD0]
    norm_num
  · have hcs : ((dot a b : ℚ) : ℝ) ^ 2 ≤ ((normSq a : ℚ) : ℝ) * ((normSq b : ℚ) : ℝ) := by
      have := dot_sq_le a b
      have h2 : ((dot a b ^ 2 : ℚ) : ℝ) ≤ ((normSq a * normSq b : ℚ) : ℝ) := by
        exact_mod_cast this
      push_cast at h2
      exact h2
    have habs : |((dot a b : ℚ) : ℝ)| ≤ D := by
      have h1 : |((dot a b : ℚ) : ℝ)| = Real.sqrt (((dot a b : ℚ) : ℝ) ^ 2) := by
        rw [Real.sqrt_sq_eq_abs]
      rw [h1, hD]
      calc Real.sqrt (((dot a b : ℚ) : ℝ) ^ 2)
          ≤ Real.sqrt (((normSq a : ℚ) : ℝ) * ((normSq b : ℚ) : ℝ)) :=
            Real.sqrt_le_sqrt hcs
        _ = Real.sqrt ((normSq a : ℚ) : ℝ) * Real.sqrt ((normSq b : ℚ) : ℝ) := by
            apply Real.sqrt_mul
            exact_mod_cast normSq_nonneg a
    constructor
    · rw [le_div_iff₀ hDpos]
      have := neg_abs_le ((dot a b : ℚ) : ℝ)
      linarith
    · rw [div_le_one hDpos]
      have := le_abs_self ((dot a b : ℚ) : ℝ)
      linarith

/-- The fuser fold, characterized: it accumulates the present-signal
weighted values and weights, and records whether any signal was present. -/
theorem fuse_foldl (wvs : List (ℚ × Option ℚ)) :
    ∀ n d : ℚ, ∀ p : Bool,
      wvs.foldl fuseStep (n, d, p) =
        (n + (presentWeighted wvs).sum, d + (presentWeights wvs).sum,
          p || wvs.any (fun wv => wv.2.isSome)) := by
  induction wvs with
  | nil => intro n d p; simp [presentWeighted, presentWeights]
  | cons wv rest ih =>
      intro n d p
      cases hv : wv.2 with
      | none =>
          simp only [List.foldl_cons, fuseStep, hv]
          rw [ih]
          simp [presentWeighted, presentWeights, hv]
      | some v =>
          simp only [List.foldl_cons, fuseStep, hv]
          rw [ih]
          simp [presentWeighted, presentWeights, hv]
          constructor
          · ring
          · ring

/-- `fuse` on a list with at least one present signal is the renormalized
weighted sum over present signals. -/
theorem fuse_eq_of_present {wvs : List (ℚ × Option ℚ)} {w : ℚ} {v : ℚ}
    (hmem : (w, some v) ∈ wvs) :
    fuse wvs = some ((presentWeighted wvs).sum / (presentWeights wvs).sum) := by
  unfold fuse
  rw [fuse_foldl]
  have hany : wvs.any (fun wv => wv.2.isSome) = true := by
    rw [List.any_eq_true]
    exact ⟨(w, some v), hmem, rfl⟩
  simp [hany]

/-- `fuse` on a list with no present signal is `none`. -/
theorem fuse_eq_none {wvs : List (ℚ × Option ℚ)}
    (h : ∀ wv ∈ wvs, wv.2 = none) : fuse wvs = none := by
  unfold fuse
  rw [fuse_foldl]
  have hany : wvs.any (fun wv => wv.2.isSome) = false := by
    rw [List.any_eq_false]
    intro wv hwv
    rw [h wv hwv]
    simp
  simp [hany]

theorem candLE_trans (a b c : Cand) (h1 : candLE a b = true) (h2 : candLE b c = true) :
    candLE a c = true := by
  simp only [candLE, decide_eq_true_eq] at h1 h2 ⊢
  rcases h1 with h1 | ⟨h1e, h1i⟩ <;> rcases h2 with h2 | ⟨h2e, h2i⟩
  · exact Or.inl (lt_trans h2 h1)
  · exact Or.inl (h2e ▸ h1)
  · exact Or.inl (h1e ▸ h2)
  · exact Or.inr ⟨h1e.trans h2e, le_trans h1i h2i⟩

theorem candLE_total (a b : Cand) : (candLE a b || candLE b a) = true := by
  simp only [candLE, Bool.or_eq_true, decide_eq_true_eq]
  rcases lt_trichotomy a.score b.score with h | h | h
  · exact Or.inr (Or.inl h)
  · rcases le_total a.partner.id b.partner.id with hi | hi
    · exact Or.inl (Or.inr ⟨h, hi⟩)
    · exact Or.inr (Or.inr ⟨h.symm, hi⟩)
  · exact Or.inl (Or.inl h)

theorem resultLE_trans (a b c : SearchResult) (h1 : resultLE a b = true)
    (h2 : resultLE b c = true) : resultLE a c = true := by
  simp only [resultLE, decide_eq_true_eq] at h1 h2 ⊢
  rcases h1 with h1 | ⟨h1e, h1u⟩ <;> rcases h2 with h2 | ⟨h2e, h2u⟩
  · exact Or.inl (lt_trans h2 h1)
  · exact Or.inl (h2e ▸ h1)
  · exact Or.inl (h1e ▸ h2)
  · exact Or.inr ⟨h1e.trans h2e, le_trans h2u h1u⟩

theorem resultLE_total (a b : SearchResult) : (resultLE a b || resultLE b a) = true := by
  simp only [resultLE, Bool.or_eq_true, decide_eq_true_eq]
  rcases lt_trichotomy a.score b.score with h | h | h
  · exact Or.inr (Or.inl h)
  · rcases le_total a.updated b.updated with hu | hu
    · exact Or.inr (Or.inr ⟨h.symm, hu⟩)
    · exact Or.inl (Or.inr ⟨h, hu⟩)
  · exact Or.inl (Or.inl h)

/-- In a merge-sorted list, every element kept by `take K` relates to every
element dropped by it. -/
theorem mergeSort_take_dominates {α : Type} (le : α → α → Bool)
    (htrans : ∀ a b c, le a b = true → le b c = true → le a c = true)
    (htotal : ∀ a b, (le a b || le b a) = true)
    (l : List α) (K : Nat) {p q : α}
    (hp : p ∈ (l.mergeSort le).take K) (hq : q ∈ l)
    (hq2 : q ∉ (l.mergeSort le).take K) : le p q = true := by
  have hs : List.Pairwise (fun a b => le a b = true) (l.mergeSort le) :=
    List.sorted_mergeSort htrans htotal l
  have hqs : q ∈ l.mergeSort le := List.mem_mergeSort.mpr hq
  have hsplit := List.take_append_drop K (l.mergeSort le)
  rw [← hsplit] at hs hqs
  rcases List.mem_append.mp hqs with h | h
  · exact absurd h hq2
  · exact (List.pairwise_append.mp hs).2.2 p hp q h

/-- Unpacking membership in a candidate set. -/
theorem mem_candsFor {exts : List PairExtractor} {minScore : ℚ}
    {live : List ENote} {n : ENote} {c : Cand}
    (h : c ∈ candsFor exts minScore live n) :
    c.partner ∈ live ∧ c.partner.id ≠ n.id ∧
      fuse (pairSignals exts n c.partner) = some c.score ∧ minScore ≤ c.score := by
  unfold candsFor at h
  rcases List.mem_filterMap.mp h with ⟨m, hm, hf⟩
  rcases Option.bind_eq_some.mp hf with ⟨s, hfs, hif⟩
  rcases List.mem_filter.mp hm with ⟨hmem, hne⟩
  by_cases hms : minScore ≤ s
  · rw [if_pos hms] at hif
    have hc : Cand.mk m s = c := Option.some.inj hif
    subst hc
    refine ⟨hmem, ?_, hfs, hms⟩
    simpa using hne
  · rw [if_neg hms] at hif
    exact absurd hif (by simp)

/-- Unpacking membership in the scored search candidates. -/
theorem mem_searchCands {qexts : List QueryExtractor} {notes : List ENote}
    {r : SearchResult} (h : r ∈ searchCands qexts notes) :
    ∃ n, n ∈ liveNotes notes ∧ r.noteId = n.id ∧ r.updated = n.updated_at ∧
      fuse (querySignals qexts n) = some r.score := by
  unfold searchCands at h
  rcases List.mem_filterMap.mp h with ⟨n, hn, hf⟩
  rcases Option.map_eq_some'.mp hf with ⟨s, hfs, hr⟩
  subst hr
  exact ⟨n, hn, rfl, rfl, hfs⟩

/-- Kept partners are candidates. -/
theorem mem_keptPartners {exts : List PairExtractor} {minScore : ℚ} {K : Nat}
    {live : List ENote} {n : ENote} {c : Cand}
    (h : c ∈ keptPartners exts minScore K live n) :
    c ∈ candsFor exts minScore live n := by
  unfold keptPartners at h
  exact List.mem_mergeSort.mp (List.take_subset _ _ h)

/-- Membership in the live snapshot. -/
theorem mem_liveNotes {notes : List ENote} {n : ENote} (h : n ∈ liveNotes notes) :
    n ∈ notes ∧ n.deleted = false := by
  rcases List.mem_filter.mp h with ⟨h1, h2⟩
  exact ⟨h1, by simpa using h2⟩

/-- The tracker stays `Stale` over any run without a successful rebuild. -/
theorem stalenessRun_stale {events : List StalenessEvent}
    (h : StalenessEvent.rebuildSucceeded ∉ events) :
    stalenessRun Staleness.Stale events = Staleness.Stale := by
  induction events with
  | nil => rfl
  | cons e rest ih =>
      have hne : e ≠ StalenessEvent.rebuildSucceeded := fun he => h (he ▸ List.mem_cons_self e rest)
      have hrest : StalenessEvent.rebuildSucceeded ∉ rest := fun hr => h (List.mem_cons_of_mem e hr)
      have hstep : stalenessStep Staleness.Stale e = Staleness.Stale := by
        cases e <;> first | rfl | exact absurd rfl hne
      show stalenessRun (stalenessStep Staleness.Stale e) rest = Staleness.Stale
      rw [hstep]
      exact ih hrest

end Engine

namespace Frontend

/-- Any per-row projection unaffected by setting `deleted_at` passes through
`deleteNote` unchanged. -/
theorem deleteNote_map_field {β : Type} (id : String) (now : ℚ) (table : List Note)
    (f : Note → β) (hf : ∀ n : Note, f { n with deleted_at := some now } = f n) :
    (deleteNote id now table).map f = table.map f := by
  unfold deleteNote
  rw [List.map_map]
  apply List.map_congr_left
  intro n _
  by_cases h : n.id = id
  · show f (if n.id = id then { n with deleted_at := some now } else n) = f n
    rw [if_pos h]
    exact hf n
  · show f (if n.id = id then { n with deleted_at := some now } else n) = f n
    rw [if_neg h]

end Frontend

namespace Schema

theorem distLE_trans (dist : List ℚ → List ℚ → ℚ) (qe : List ℚ)
    (a b c : EmbRow × Frontend.Note) (h1 : distLE dist qe a b = true)
    (h2 : distLE dist qe b c = true) : distLE dist qe a c = true := by
  simp only [distLE, decide_eq_true_eq] at h1 h2 ⊢
  exact le_trans h1 h2

theorem distLE_total (dist : List ℚ → List ℚ → ℚ) (qe : List ℚ)
    (a b : EmbRow × Frontend.Note) : (distLE dist qe a b || distLE dist qe b a) = true := by
  simp only [distLE, Bool.or_eq_true, decide_eq_true_eq]
  exact le_total _ _

end Schema

/-! ## Claims -/

set_option maxRecDepth 8000 in
/-- C9: every note returned by `createNote` has `version = 1`,
`enhanced = 0`, empty `links`, `deleted_at = null` (never born
soft-deleted), `created_at = updated_at`, and a checksum equal to the
first 32 hex characters of the SHA-256 hash of its content. -/
theorem claim_C9 (input : Frontend.NoteCreate) (id : String) (now : ℚ) :
    (Frontend.createNote input id now).version = 1 ∧
    (Frontend.createNote input id now).enhanced = 0 ∧
    (Frontend.createNote input id now).links = [] ∧
    (Frontend.createNote input id now).deleted_at = none ∧
    (Frontend.createNote input id now).created_at =
      (Frontend.createNote input id now).updated_at ∧
    (Frontend.createNote input id now).checksum =
      (Sha256.sha256Hex (input.content.toUTF8.toList.map (fun b => b.toNat))).take 32 := by
  simp [Frontend.createNote, Frontend.computeChecksum]

/-- C10: `deleteNote` is a pure soft delete — it changes only
`deleted_at` (to the current time, on the matching row) and leaves
`id`, `type`, `title`, `content`, `created_at`, `updated_at`, `version`,
`checksum`, `links`, `provenance` and `enhanced` of every row unchanged,
preserving the table's length.  (Tags live in a separate table that
`deleteNote` never touches.) -/
theorem claim_C10 (id : String) (now : ℚ) (table : List Frontend.Note) :
    (Frontend.deleteNote id now table).map (fun n => n.content) =
      table.map (fun n => n.content) ∧
    (Frontend.deleteNote id now table).map (fun n => n.title) =
      table.map (fun n => n.title) ∧
    (Frontend.deleteNote id now table).map (fun n => n.type) =
      table.map (fun n => n.type) ∧
    (Frontend.deleteNote id now table).map (fun n => n.links) =
      table.map (fun n => n.links) ∧
    (Frontend.deleteNote id now table).map (fun n => n.version) =
      table.map (fun n => n.version) ∧
    (Frontend.deleteNote id now table).map (fun n => n.checksum) =
      table.map (fun n => n.checksum) ∧
    (Frontend.deleteNote id now table).map (fun n => n.enhanced) =
      table.map (fun n => n.enhanced) ∧
    (Frontend.deleteNote id now table).map (fun n => n.created_at) =
      table.map (fun n => n.created_at) ∧
    (Frontend.deleteNote id now table).map (fun n => n.updated_at) =
      table.map (fun n => n.updated_at) ∧
    (Frontend.deleteNote id now table).map (fun n => n.provenance) =
      table.map (fun n => n.provenance) ∧
    (Frontend.deleteNote id now table).map (fun n => n.id) =
      table.map (fun n => n.id) ∧
    (Frontend.deleteNote id now table).map (fun n => n.deleted_at) =
      table.map (fun n => if n.id = id then some now else n.deleted_at) ∧
    (Frontend.deleteNote id now table).length = table.length := by
  refine ⟨?_, ?_, ?_, ?_, ?_, ?_, ?_, ?_, ?_, ?_, ?_, ?_, ?_⟩
  · exact Frontend.deleteNote_map_field id now table _ (fun n => rfl)
  · exact Frontend.deleteNote_map_field id now table _ (fun n => rfl)
  · exact Frontend.deleteNote_map_field id now table _ (fun n => rfl)
  · exact Frontend.deleteNote_map_field id now table _ (fun n => rfl)
  · exact Frontend.deleteNote_map_field id now table _ (fun n => rfl)
  · exact Frontend.deleteNote_map_field id now table _ (fun n => rfl)
  · exact Frontend.deleteNote_map_field id now table _ (fun n => rfl)
  · exact Frontend.deleteNote_map_field id now table _ (fun n => rfl)
  · exact Frontend.deleteNote_map_field id now table _ (fun n => rfl)
  · exact Frontend.deleteNote_map_field id now table _ (fun n => rfl)
  · exact Frontend.deleteNote_map_field id now table _ (fun n => rfl)
  · unfold Frontend.deleteNote
    rw [List.map_map]
    apply List.map_congr_left
    intro n _
    by_cases h : n.id = id <;> simp [h]
  · unfold Frontend.deleteNote
    exact List.length_map _ _

/-- C7: the staleness tracker is a two-state machine on {Fresh, Stale}:
every note create/edit/delete lands in Stale (idempotently), the only
transition out of Stale to Fresh is a successful full rebuild, and after
a mutation followed by any run without a successful rebuild the tracker
is still Stale. -/
theorem claim_C7 :
    (∀ (s : Engine.Staleness) (e : Engine.StalenessEvent),
      e.isMutation = true → Engine.stalenessStep s e = Engine.Staleness.Stale) ∧
    (∀ e : Engine.StalenessEvent,
      Engine.stalenessStep Engine.Staleness.Stale e = Engine.Staleness.Fresh →
      e = Engine.StalenessEvent.rebuildSucceeded) ∧
    (∀ (s : Engine.Staleness) (e : Engine.StalenessEvent)
      (events : List Engine.StalenessEvent),
      e.isMutation = true →
      Engine.StalenessEvent.rebuildSucceeded ∉ events →
      Engine.stalenessRun (Engine.stalenessStep s e) events = Engine.Staleness.Stale) := by
  refine ⟨?_, ?_, ?_⟩
  · intro s e he
    cases e <;> first | rfl | simp [Engine.StalenessEvent.isMutation] at he
  · intro e he
    cases e <;> first | rfl | simp [Engine.stalenessStep] at he
  · intro s e events he hne
    have hstep : Engine.stalenessStep s e = Engine.Staleness.Stale := by
      cases e <;> first | rfl | simp [Engine.StalenessEvent.isMutation] at he
    rw [hstep]
    exact Engine.stalenessRun_stale hne

/-- Witness for C7 at concrete inputs. -/
theorem claim_C7_witness :
    Engine.stalenessStep Engine.Staleness.Fresh Engine.StalenessEvent.noteCreated =
      Engine.Staleness.Stale ∧
    Engine.StalenessEvent.rebuildSucceeded = Engine.StalenessEvent.rebuildSucceeded ∧
    Engine.stalenessRun
      (Engine.stalenessStep Engine.Staleness.Fresh Engine.StalenessEvent.noteDeleted)
      [Engine.StalenessEvent.incrementalRebuildUnverified, Engine.StalenessEvent.noteEdited] =
      Engine.Staleness.Stale :=
  ⟨claim_C7.1 Engine.Staleness.Fresh Engine.StalenessEvent.noteCreated rfl,
   claim_C7.2.1 Engine.StalenessEvent.rebuildSucceeded rfl,
   claim_C7.2.2 Engine.Staleness.Fresh Engine.StalenessEvent.noteDeleted
     [Engine.StalenessEvent.incrementalRebuildUnverified, Engine.StalenessEvent.noteEdited]
     rfl (by decide)⟩

/-- C5: when both sides carry an embedding of the same model and
dimension, the semantic-similarity signal is present and equals the
cosine similarity (which lies in [-1, 1]) rescaled to [0, 1] by
`(cos + 1) / 2`; with a model or dimension mismatch, or a missing
embedding on either side, the signal is absent rather than zero. -/
theorem claim_C5 (ea eb : Engine.Embedding) :
    (ea.model = eb.model → ea.dim = eb.dim →
      Engine.semanticSimilarity (some ea) (some eb) =
        some ((Engine.cosineSim ea.vec eb.vec + 1) / 2) ∧
      -1 ≤ Engine.cosineSim ea.vec eb.vec ∧ Engine.cosineSim ea.vec eb.vec ≤ 1 ∧
      0 ≤ (Engine.cosineSim ea.vec eb.vec + 1) / 2 ∧
      (Engine.cosineSim ea.vec eb.vec + 1) / 2 ≤ 1) ∧
    (¬(ea.model = eb.model ∧ ea.dim = eb.dim) →
      Engine.semanticSimilarity (some ea) (some eb) = none) ∧
    (∀ x : Option Engine.Embedding,
      Engine.semanticSimilarity none x = none ∧ Engine.semanticSimilarity x none = none) := by
  refine ⟨?_, ?_, ?_⟩
  · intro h1 h2
    obtain ⟨hl, hu⟩ := Engine.cosineSim_bounds ea.vec eb.vec
    refine ⟨?_, hl, hu, by linarith, by linarith⟩
    simp [Engine.semanticSimilarity, h1, h2]
  · intro h
    simp [Engine.semanticSimilarity, h]
  · intro x
    exact ⟨by cases x <;> rfl, by cases x <;> rfl⟩

/-- Witness for C5 at concrete embeddings: a matched pair is present,
a mismatched pair is absent. -/
theorem claim_C5_witness :
    Engine.semanticSimilarity (some ⟨"all-MiniLM-L6-v2", 2, [1, 0]⟩)
        (some ⟨"all-MiniLM-L6-v2", 2, [0, 1]⟩) =
      some ((Engine.cosineSim [1, 0] [0, 1] + 1) / 2) ∧
    Engine.semanticSimilarity (some ⟨"all-MiniLM-L6-v2", 2, [1, 0]⟩)
        (some ⟨"other-model", 2, [0, 1]⟩) = none :=
  ⟨((claim_C5 ⟨"all-MiniLM-L6-v2", 2, [1, 0]⟩ ⟨"all-MiniLM-L6-v2", 2, [0, 1]⟩).1 rfl rfl).1,
   (claim_C5 ⟨"all-MiniLM-L6-v2", 2, [1, 0]⟩ ⟨"other-model", 2, [0, 1]⟩).2.1 (by decide)⟩

/-- C1: the fused score of any candidate with at least one present signal
is the weighted sum of present signal values divided by the sum of present
signal weights; with no present signal the fuser yields no score at all,
so such a pair never enters the candidate set (and every search hit's
score comes from a present-signal fusion, never a default zero). -/
theorem claim_C1 :
    (∀ (wvs : List (ℚ × Option ℚ)) (w v : ℚ), (w, some v) ∈ wvs →
      Engine.fuse wvs =
        some ((Engine.presentWeighted wvs).sum / (Engine.presentWeights wvs).sum)) ∧
    (∀ wvs : List (ℚ × Option ℚ), (∀ wv ∈ wvs, wv.2 = none) → Engine.fuse wvs = none) ∧
    (∀ (exts : List Engine.PairExtractor) (minScore : ℚ) (live : List Engine.ENote)
      (n m : Engine.ENote) (s : ℚ),
      (∀ we ∈ exts, we.2 n m = none) →
      Engine.Cand.mk m s ∉ Engine.candsFor exts minScore live n) ∧
    (∀ (qexts : List Engine.QueryExtractor) (notes : List Engine.ENote)
      (r : Engine.SearchResult), r ∈ Engine.searchCands qexts notes →
      ∃ n, n ∈ Engine.liveNotes notes ∧ r.noteId = n.id ∧
        Engine.fuse (Engine.querySignals qexts n) = some r.score) := by
  refine ⟨?_, ?_, ?_, ?_⟩
  · intro wvs w v hmem
    exact Engine.fuse_eq_of_present hmem
  · intro wvs h
    exact Engine.fuse_eq_none h
  · intro exts minScore live n m s h hmem
    have h2 := Engine.mem_candsFor hmem
    have h4 : Engine.fuse (Engine.pairSignals exts n m) = some s := h2.2.2.1
    have h3 : Engine.fuse (Engine.pairSignals exts n m) = none := by
      apply Engine.fuse_eq_none
      intro wv hwv
      unfold Engine.pairSignals at hwv
      rcases List.mem_map.mp hwv with ⟨we, hwe, hwv2⟩
      rw [← hwv2]
      exact h we hwe
    rw [h3] at h4
    exact absurd h4 (by simp)
  · intro qexts notes r h
    rcases Engine.mem_searchCands h with ⟨n, h1, h2, _, h4⟩
    exact ⟨n, h1, h2, h4⟩

/-- Witness for C1 at concrete inputs: a two-signal list with one present
signal fuses to the renormalized weighted sum; an all-absent list fuses to
nothing; a pair with no present signal is not a candidate; a concrete
search hit traces back to a live note with a present-signal score. -/
theorem claim_C1_witness :
    Engine.fuse [((2 : ℚ), some ((1 : ℚ) / 2)), ((3 : ℚ), none)] =
      some ((Engine.presentWeighted [((2 : ℚ), some ((1 : ℚ) / 2)), ((3 : ℚ), none)]).sum /
        (Engine.presentWeights [((2 : ℚ), some ((1 : ℚ) / 2)), ((3 : ℚ), none)]).sum) ∧
    Engine.fuse [((2 : ℚ), (none : Option ℚ))] = none ∧
    Engine.Cand.mk (⟨"b", [], [], 0, 0, false⟩ : Engine.ENote) 1 ∉
      Engine.candsFor [] 0 [⟨"b", [], [], 0, 0, false⟩]
        (⟨"a", [], [], 0, 0, false⟩ : Engine.ENote) ∧
    ∃ n, n ∈ Engine.liveNotes [(⟨"a", [], [], 0, 0, false⟩ : Engine.ENote)] ∧
      (Engine.SearchResult.mk "a" 1 0).noteId = n.id ∧
      Engine.fuse (Engine.querySignals [((1 : ℚ), fun _ => some (1 : ℚ))] n) =
        some (Engine.SearchResult.mk "a" 1 0).score :=
  ⟨claim_C1.1 _ 2 (1 / 2) (List.mem_cons_self _ _),
   claim_C1.2.1 _ (by decide),
   claim_C1.2.2.1 [] 0 [⟨"b", [], [], 0, 0, false⟩] ⟨"a", [], [], 0, 0, false⟩
     ⟨"b", [], [], 0, 0, false⟩ 1 (by simp),
   claim_C1.2.2.2 [((1 : ℚ), fun _ => some (1 : ℚ))]
     [⟨"a", [], [], 0, 0, false⟩] ⟨"a", 1, 0⟩
     (by simp [Engine.searchCands, Engine.liveNotes, Engine.querySignals,
       Engine.fuse, Engine.fuseStep])⟩

/-- C4: for every query, the engine's result list is sorted by fused score
descending with ties broken by last-modified time descending (more recent
first), and contains at most `topN` entries; likewise the in-source
`semantic_search` returns its hits in descending similarity order and at
most `match_count` of them. -/
theorem claim_C4 (qexts : List Engine.QueryExtractor) (notes : List Engine.ENote)
    (topN : Nat) :
    (List.Pairwise (fun a b : Engine.SearchResult =>
        b.score < a.score ∨ (a.score = b.score ∧ b.updated ≤ a.updated))
      (Engine.search qexts notes topN) ∧
    (Engine.search qexts notes topN).length ≤ topN) ∧
    (∀ (dist : List ℚ → List ℚ → ℚ) (qe : List ℚ) (th : ℚ) (cnt : Nat)
      (tbl : List Frontend.Note) (embs : List Schema.EmbRow),
      List.Pairwise (fun p q : Schema.SemanticHit => q.similarity ≤ p.similarity)
        (Schema.semantic_search dist qe th cnt tbl embs) ∧
      (Schema.semantic_search dist qe th cnt tbl embs).length ≤ cnt) := by
  refine ⟨⟨?_, ?_⟩, ?_⟩
  · have hs := List.sorted_mergeSort Engine.resultLE_trans Engine.resultLE_total
      (Engine.searchCands qexts notes)
    have ht : (Engine.search qexts notes topN).Sublist
        ((Engine.searchCands qexts notes).mergeSort Engine.resultLE) :=
      List.take_sublist _ _
    have hp := List.Pairwise.sublist ht hs
    exact hp.imp (by intro a b h; simpa [Engine.resultLE, decide_eq_true_eq] using h)
  · exact List.length_take_le _ _
  · intro dist qe th cnt tbl embs
    constructor
    · unfold Schema.semantic_search
      rw [List.pairwise_map]
      have hs := List.sorted_mergeSort (Schema.distLE_trans dist qe) (Schema.distLE_total dist qe)
        ((Schema.joinLive tbl embs).filter (fun p =>
          th < 1 - dist p.1.vector qe))
      have hp := List.Pairwise.sublist (List.take_sublist cnt _) hs
      refine hp.imp ?_
      intro a b h
      simp only [Schema.distLE, decide_eq_true_eq] at h
      exact sub_le_sub_left h 1
    · unfold Schema.semantic_search
      rw [List.length_map]
      exact List.length_take_le _ _

/-- C6: with zero non-deleted notes the graph builder returns an empty
graph and the query/listing operations return empty lists (never an
error, as all embedded operations are total); likewise a query under
which no note has any present signal yields an empty result list. -/
theorem claim_C6 :
    (∀ (notes : List Engine.ENote) (exts : List Engine.PairExtractor) (K : Nat)
      (minScore : ℚ), Engine.liveNotes notes = [] →
      Engine.build notes exts K minScore = ⟨[], []⟩) ∧
    (∀ (qexts : List Engine.QueryExtractor) (notes : List Engine.ENote) (topN : Nat),
      Engine.liveNotes notes = [] → Engine.search qexts notes topN = []) ∧
    (∀ (qexts : List Engine.QueryExtractor) (notes : List Engine.ENote) (topN : Nat),
      (∀ n ∈ Engine.liveNotes notes, Engine.fuse (Engine.querySignals qexts n) = none) →
      Engine.search qexts notes topN = []) ∧
    (∀ table : List Frontend.Note, (∀ n ∈ table, n.deleted_at.isSome) →
      Frontend.getAllNotes table = []) ∧
    (∀ (t : Frontend.NoteType) (table : List Frontend.Note),
      (∀ n ∈ table, n.deleted_at.isSome) → Frontend.getNotesByType t table = []) ∧
    (∀ (q : String) (table : List Frontend.Note),
      (∀ n ∈ table, n.deleted_at.isSome) → Frontend.searchNotes q table = []) ∧
    (∀ (dist : List ℚ → List ℚ → ℚ) (qe : List ℚ) (th : ℚ) (cnt : Nat)
      (notes : List Frontend.Note) (embs : List Schema.EmbRow),
      (∀ n ∈ notes, n.deleted_at.isSome) →
      Schema.semantic_search dist qe th cnt notes embs = []) := by
  refine ⟨?_, ?_, ?_, ?_, ?_, ?_, ?_⟩
  · intro notes exts K minScore h
    simp [Engine.build, h]
  · intro qexts notes topN h
    simp [Engine.search, Engine.searchCands, h]
  · intro qexts notes topN h
    have hc : Engine.searchCands qexts notes = [] := by
      unfold Engine.searchCands
      rw [List.filterMap_eq_nil_iff]
      intro n hn
      rw [h n hn]
      rfl
    simp [Engine.search, hc]
  · intro table h
    unfold Frontend.getAllNotes
    have hf : table.filter (fun n => n.deleted_at.isNone) = [] := by
      rw [List.filter_eq_nil_iff]
      intro n hn hcontra
      exact (Option.isSome_iff_ne_none.mp (h n hn)) (Option.isNone_iff_eq_none.mp hcontra)
    rw [hf]
    simp
  · intro t table h
    unfold Frontend.getNotesByType
    have hf : table.filter (fun n => n.type = t && n.deleted_at.isNone) = [] := by
      rw [List.filter_eq_nil_iff]
      intro n hn hcontra
      rw [Bool.and_eq_true] at hcontra
      exact (Option.isSome_iff_ne_none.mp (h n hn)) (Option.isNone_iff_eq_none.mp hcontra.2)
    rw [hf]
    simp
  · intro q table h
    unfold Frontend.searchNotes
    have hf : table.filter (fun n => n.deleted_at.isNone && Frontend.searchMatch q n) = [] := by
      rw [List.filter_eq_nil_iff]
      intro n hn hcontra
      rw [Bool.and_eq_true] at hcontra
      exact (Option.isSome_iff_ne_none.mp (h n hn)) (Option.isNone_iff_eq_none.mp hcontra.1)
    rw [hf]
    simp
  · intro dist qe th cnt notes embs h
    unfold Schema.semantic_search
    have hj : Schema.joinLive notes embs = [] := by
      unfold Schema.joinLive
      rw [List.flatMap_eq_nil_iff]
      intro e he
      have hf : notes.filter (fun n => n.id = e.note_id && n.deleted_at.isNone) = [] := by
        rw [List.filter_eq_nil_iff]
        intro n hn hcontra
        rw [Bool.and_eq_true] at hcontra
        exact (Option.isSome_iff_ne_none.mp (h n hn)) (Option.isNone_iff_eq_none.mp hcontra.2)
      rw [hf]
      rfl
    rw [hj]
    simp

/-- Witness for C6 at concrete inputs: an all-deleted or empty corpus and
a no-signal query all yield empty outputs. -/
theorem claim_C6_witness :
    Engine.build [⟨"a", [], [], 0, 0, true⟩] [] 3 0 = ⟨[], []⟩ ∧
    Engine.search [] ([] : List Engine.ENote) 5 = [] ∧
    Engine.search [] [(⟨"a", [], [], 0, 0, false⟩ : Engine.ENote)] 5 = [] ∧
    Frontend.getAllNotes [⟨"x", Frontend.NoteType.note, none, "c", 0, 0, some 1, 1, "", [], none, 0⟩] = [] ∧
    Frontend.getNotesByType Frontend.NoteType.note
      [⟨"x", Frontend.NoteType.note, none, "c", 0, 0, some 1, 1, "", [], none, 0⟩] = [] ∧
    Frontend.searchNotes "q"
      [⟨"x", Frontend.NoteType.note, none, "c", 0, 0, some 1, 1, "", [], none, 0⟩] = [] ∧
    Schema.semantic_search (fun _ _ => 0) [] 0 10
      [⟨"x", Frontend.NoteType.note, none, "c", 0, 0, some 1, 1, "", [], none, 0⟩]
      [⟨"x", "m", 2, [1, 0]⟩] = [] :=
  ⟨claim_C6.1 [⟨"a", [], [], 0, 0, true⟩] [] 3 0 (by decide),
   claim_C6.2.1 [] [] 5 rfl,
   claim_C6.2.2.1 [] [(⟨"a", [], [], 0, 0, false⟩ : Engine.ENote)] 5
     (by intro n _; rfl),
   claim_C6.2.2.2.1 _ (by decide),
   claim_C6.2.2.2.2.1 Frontend.NoteType.note _ (by decide),
   claim_C6.2.2.2.2.2.1 "q" _ (by decide),
   claim_C6.2.2.2.2.2.2 (fun _ _ => 0) [] 0 10 _ _ (by decide)⟩

/-- C2: a soft-deleted note never appears in any output: it is absent from
the note lists of `getAllNotes`, `getNotesByType` and `searchNotes` (every
returned row has a null delete marker), every `semantic_search` hit comes
from a live row, and every graph node, edge endpoint and engine search
result is the identifier of a live note — regardless of signals. -/
theorem claim_C2 :
    (∀ table : List Frontend.Note,
      (Frontend.getAllNotes table).all (fun n => n.deleted_at.isNone)) ∧
    (∀ (t : Frontend.NoteType) (table : List Frontend.Note),
      (Frontend.getNotesByType t table).all (fun n => n.deleted_at.isNone)) ∧
    (∀ (q : String) (table : List Frontend.Note),
      (Frontend.searchNotes q table).all (fun n => n.deleted_at.isNone)) ∧
    (∀ (dist : List ℚ → List ℚ → ℚ) (qe : List ℚ) (th : ℚ) (cnt : Nat)
      (notes : List Frontend.Note) (embs : List Schema.EmbRow),
      (Schema.semantic_search dist qe th cnt notes embs).all
        (fun r => notes.any (fun n => n.id = r.note_id && n.deleted_at.isNone))) ∧
    (∀ (notes : List Engine.ENote) (exts : List Engine.PairExtractor) (K : Nat)
      (minScore : ℚ),
      ((Engine.build notes exts K minScore).nodes).all
        (fun i => notes.any (fun n => n.id = i && !n.deleted))) ∧
    (∀ (notes : List Engine.ENote) (exts : List Engine.PairExtractor) (K : Nat)
      (minScore : ℚ),
      ((Engine.build notes exts K minScore).edges).all
        (fun e => notes.any (fun n => n.id = e.1 && !n.deleted) &&
          notes.any (fun n => n.id = e.2 && !n.deleted))) ∧
    (∀ (qexts : List Engine.QueryExtractor) (notes : List Engine.ENote) (topN : Nat),
      (Engine.search qexts notes topN).all
        (fun r => notes.any (fun n => n.id = r.noteId && !n.deleted))) := by
  refine ⟨?_, ?_, ?_, ?_, ?_, ?_, ?_⟩
  · intro table
    rw [List.all_eq_true]
    intro n hn
    unfold Frontend.getAllNotes at hn
    exact (List.mem_filter.mp (List.mem_mergeSort.mp hn)).2
  · intro t table
    rw [List.all_eq_true]
    intro n hn
    unfold Frontend.getNotesByType at hn
    have h2 := (List.mem_filter.mp (List.mem_mergeSort.mp hn)).2
    rw [Bool.and_eq_true] at h2
    exact h2.2
  · intro q table
    rw [List.all_eq_true]
    intro n hn
    unfold Frontend.searchNotes at hn
    have h2 := (List.mem_filter.mp (List.mem_mergeSort.mp hn)).2
    rw [Bool.and_eq_true] at h2
    exact h2.1
  · intro dist qe th cnt notes embs
    rw [List.all_eq_true]
    intro r hr
    unfold Schema.semantic_search at hr
    rcases List.mem_map.mp hr with ⟨p, hp, hpr⟩
    have hp2 : p ∈ Schema.joinLive notes embs :=
      (List.mem_filter.mp (List.mem_mergeSort.mp (List.take_subset _ _ hp))).1
    unfold Schema.joinLive at hp2
    rcases List.mem_flatMap.mp hp2 with ⟨e, _, hpe⟩
    rcases List.mem_map.mp hpe with ⟨n, hn, hne⟩
    rcases List.mem_filter.mp hn with ⟨hmem, hpred⟩
    rw [List.any_eq_true]
    refine ⟨n, hmem, ?_⟩
    rw [Bool.and_eq_true] at hpred ⊢
    refine ⟨?_, hpred.2⟩
    have : p.2 = n := by rw [← hne]
    rw [← hpr]
    simp [this]
  · intro notes exts K minScore
    rw [List.all_eq_true]
    intro i hi
    simp only [Engine.build] at hi
    rcases List.mem_map.mp hi with ⟨n, hn, hni⟩
    obtain ⟨hmem, hdel⟩ := Engine.mem_liveNotes hn
    rw [List.any_eq_true]
    exact ⟨n, hmem, by simp [hni, hdel]⟩
  · intro notes exts K minScore
    rw [List.all_eq_true]
    intro e he
    simp only [Engine.build] at he
    rcases List.mem_flatMap.mp he with ⟨n, hn, hne⟩
    rcases List.mem_map.mp hne with ⟨c, hc, hce⟩
    obtain ⟨hmem, hdel⟩ := Engine.mem_liveNotes hn
    have hcand := Engine.mem_candsFor (Engine.mem_keptPartners hc)
    obtain ⟨hpmem, hpdel⟩ := Engine.mem_liveNotes hcand.1
    rw [Bool.and_eq_true]
    constructor
    · rw [List.any_eq_true]
      exact ⟨n, hmem, by simp [← hce, hdel]⟩
    · rw [List.any_eq_true]
      exact ⟨c.partner, hpmem, by simp [← hce, hpdel]⟩
  · intro qexts notes topN
    rw [List.all_eq_true]
    intro r hr
    unfold Engine.search at hr
    have hr2 : r ∈ Engine.searchCands qexts notes :=
      List.mem_mergeSort.mp (List.take_subset _ _ hr)
    rcases Engine.mem_searchCands hr2 with ⟨n, hn, hid, _, _⟩
    obtain ⟨hmem, hdel⟩ := Engine.mem_liveNotes hn
    rw [List.any_eq_true]
    exact ⟨n, hmem, by simp [hid, hdel]⟩

/-! ## Decimal/lexicographic machinery for the identifier ordering (C8) -/

namespace Frontend

theorem digitChar_lt : ∀ a, a < 10 → ∀ b, b < 10 →
    (Nat.digitChar a < Nat.digitChar b ↔ a < b) := by decide

theorem digitChar_inj : ∀ a, a < 10 → ∀ b, b < 10 →
    (Nat.digitChar a = Nat.digitChar b ↔ a = b) := by decide

/-- `Nat.toDigitsCore` with enough fuel produces the reference numeral. -/
theorem toDigitsCore_eq : ∀ (f n : Nat) (ds : List Char), n < f →
    Nat.toDigitsCore 10 f n ds = decDigits n ++ ds := by
  intro f
  induction f with
  | zero => intro n ds h; omega
  | succ f ih =>
      intro n ds h
      by_cases h10 : n < 10
      · have hdiv : n / 10 = 0 := Nat.div_eq_of_lt h10
        have hmod : n % 10 = n := Nat.mod_eq_of_lt h10
        simp [Nat.toDigitsCore, hdiv, decDigits, h10, hmod]
      · have hdiv : n / 10 ≠ 0 := by omega
        have hstep : Nat.toDigitsCore 10 (f + 1) n ds =
            Nat.toDigitsCore 10 f (n / 10) (Nat.digitChar (n % 10) :: ds) := by
          simp [Nat.toDigitsCore, hdiv]
        rw [hstep, ih (n / 10) _ (by omega)]
        rw [show decDigits n = decDigits (n / 10) ++ [Nat.digitChar (n % 10)] from by
          rw [decDigits]; simp [h10]]
        simp

/-- `toString` on `Nat` spells the decimal digits. -/
theorem toString_data (n : Nat) : (toString n).data = decDigits n := by
  show (Nat.repr n).data = decDigits n
  unfold Nat.repr Nat.toDigits
  rw [toDigitsCore_eq (n + 1) n [] (by omega)]
  simp [List.asString]

theorem decDigits_two (n : Nat) (h1 : 10 ≤ n) (h2 : n < 100) :
    decDigits n = [Nat.digitChar (n / 10), Nat.digitChar (n % 10)] := by
  rw [decDigits]
  have h3 : ¬ n < 10 := by omega
  have h4 : n / 10 < 10 := by omega
  simp [h3, decDigits, h4]

/-- The two characters of `pad2` are the decimal digits. -/
theorem pad2_data (n : Nat) (h : n < 100) :
    (pad2 n).data = [Nat.digitChar (n / 10), Nat.digitChar (n % 10)] := by
  unfold pad2
  by_cases h10 : n < 10
  · have hdiv : n / 10 = 0 := Nat.div_eq_of_lt h10
    have hmod : n % 10 = n := Nat.mod_eq_of_lt h10
    rw [if_pos h10, String.data_append, toString_data]
    rw [show decDigits n = [Nat.digitChar n] from by rw [decDigits]; simp [h10]]
    rw [hdiv, hmod]
    rfl
  · rw [if_neg h10, toString_data, decDigits_two n (by omega) h]

/-- A 4-digit numeral splits into two 2-digit `pad2` halves. -/
theorem toString_year (y : Nat) (h1 : 1000 ≤ y) (h2 : y < 10000) :
    (toString y).data = (pad2 (y / 100)).data ++ (pad2 (y % 100)).data := by
  rw [toString_data]
  rw [decDigits]
  have ha : ¬ y < 10 := by omega
  rw [if_neg ha, decDigits]
  have hb : ¬ y / 10 < 10 := by omega
  rw [if_neg hb, decDigits]
  have hc : ¬ y / 10 / 10 < 10 := by omega
  rw [if_neg hc, decDigits]
  have hd : y / 10 / 10 / 10 < 10 := by omega
  rw [if_pos hd]
  rw [pad2_data _ (by omega), pad2_data _ (by omega)]
  have e1 : y / 10 / 10 / 10 = y / 100 / 10 := by omega
  have e2 : y / 10 / 10 % 10 = y / 100 % 10 := by omega
  have e3 : y / 10 % 10 = y % 100 / 10 := by omega
  have e4 : y % 10 = y % 100 % 10 := by omega
  rw [e1, e2, e3, e4]
  simp

theorem lex_pair (c1 c2 d1 d2 : Char) :
    List.Lex (· < ·) [c1, c2] [d1, d2] ↔ c1 < d1 ∨ (c1 = d1 ∧ c2 < d2) := by
  constructor
  · intro h
    cases h with
    | rel h => exact Or.inl h
    | cons h =>
        cases h with
        | rel h2 => exact Or.inr ⟨rfl, h2⟩
        | cons h3 => cases h3
  · rintro (h | ⟨rfl, h⟩)
    · exact List.Lex.rel h
    · exact List.Lex.cons (List.Lex.rel h)

/-- Lexicographic comparison through equal-length leading blocks. -/
theorem lex_append_block : ∀ (l1 l2 r1 r2 : List Char), l1.length = l2.length →
    (List.Lex (· < ·) (l1 ++ r1) (l2 ++ r2) ↔
      List.Lex (· < ·) l1 l2 ∨ (l1 = l2 ∧ List.Lex (· < ·) r1 r2)) := by
  intro l1
  induction l1 with
  | nil =>
      intro l2 r1 r2 hlen
      cases l2 with
      | nil => simp
      | cons b bs => simp at hlen
  | cons a as ih =>
      intro l2 r1 r2 hlen
      cases l2 with
      | nil => simp at hlen
      | cons b bs =>
          rw [List.length_cons, List.length_cons] at hlen
          have hlen2 : as.length = bs.length := by omega
          simp only [List.cons_append]
          constructor
          · intro h
            cases h with
            | rel hab => exact Or.inl (List.Lex.rel hab)
            | cons htail =>
                rcases (ih bs r1 r2 hlen2).mp htail with h2 | ⟨heq, h3⟩
                · exact Or.inl (List.Lex.cons h2)
                · exact Or.inr ⟨by rw [heq], h3⟩
          · intro h
            rcases h with h | ⟨heq, h3⟩
            · cases h with
              | rel hab => exact List.Lex.rel hab
              | cons h2 => exact List.Lex.cons ((ih bs r1 r2 hlen2).mpr (Or.inl h2))
            · injection heq with h4 h5
              subst h4
              subst h5
              exact List.Lex.cons ((ih as r1 r2 rfl).mpr (Or.inr ⟨rfl, h3⟩))

theorem pad2_lex (a b : Nat) (ha : a < 100) (hb : b < 100) :
    (List.Lex (· < ·) (pad2 a).data (pad2 b).data ↔ a < b) := by
  rw [pad2_data a ha, pad2_data b hb, lex_pair]
  rw [digitChar_lt _ (by omega) _ (by omega), digitChar_inj _ (by omega) _ (by omega),
    digitChar_lt _ (by omega) _ (by omega)]
  omega

theorem pad2_data_inj (a b : Nat) (ha : a < 100) (hb : b < 100)
    (h : (pad2 a).data = (pad2 b).data) : a = b := by
  rw [pad2_data a ha, pad2_data b hb] at h
  injection h with h1 h2
  injection h2 with h2 _
  have e1 := (digitChar_inj _ (by omega) _ (by omega)).mp h1
  have e2 := (digitChar_inj _ (by omega) _ (by omega)).mp h2
  omega

theorem pad2_len (n : Nat) (h : n < 100) : (pad2 n).data.length = 2 := by
  rw [pad2_data n h]
  rfl

theorem year_lex (y1 y2 : Nat) (h1l : 1000 ≤ y1) (h1u : y1 < 10000)
    (h2l : 1000 ≤ y2) (h2u : y2 < 10000) :
    (List.Lex (· < ·) (toString y1).data (toString y2).data ↔ y1 < y2) := by
  rw [toString_year y1 h1l h1u, toString_year y2 h2l h2u,
    lex_append_block _ _ _ _ (by rw [pad2_len _ (by omega), pad2_len _ (by omega)])]
  rw [pad2_lex _ _ (by omega) (by omega), pad2_lex _ _ (by omega) (by omega)]
  constructor
  · rintro (h | ⟨he, h⟩)
    · omega
    · have := pad2_data_inj _ _ (by omega) (by omega) he
      omega
  · intro h
    by_cases hd : y1 / 100 < y2 / 100
    · exact Or.inl hd
    · refine Or.inr ⟨?_, by omega⟩
      have : y1 / 100 = y2 / 100 := by omega
      rw [this]

theorem year_len (y : Nat) (h1 : 1000 ≤ y) (h2 : y < 10000) :
    (toString y).data.length = 4 := by
  rw [toString_year y h1 h2, List.length_append, pad2_len _ (by omega), pad2_len _ (by omega)]

/-- The characters of a generated identifier, block by block. -/
theorem generateNoteId_data (d : DateTime) :
    (generateNoteId d).data = (toString d.year).data ++ ((pad2 d.month).data ++
      ((pad2 d.day).data ++ ((pad2 d.hour).data ++ ((pad2 d.minute).data ++
      (pad2 d.second).data)))) := by
  unfold generateNoteId
  simp [String.data_append]

end Frontend

/-- C8 (counterexample): two creations at distinct wall-clock times inside
the same second — the later one (by 800 ms) yields the *same* generated
identifier, not a strictly greater one; identifiers are not strictly
monotone in wall-clock creation time. -/
theorem claim_C8_counterexample :
    Frontend.wallClockLt ⟨2025, 1, 3, 14, 25, 30, 100⟩ ⟨2025, 1, 3, 14, 25, 30, 900⟩ ∧
    Frontend.generateNoteId ⟨2025, 1, 3, 14, 25, 30, 100⟩ =
      Frontend.generateNoteId ⟨2025, 1, 3, 14, 25, 30, 900⟩ ∧
    ¬ (Frontend.generateNoteId ⟨2025, 1, 3, 14, 25, 30, 100⟩ <
        Frontend.generateNoteId ⟨2025, 1, 3, 14, 25, 30, 900⟩) := by
  refine ⟨by unfold Frontend.wallClockLt; decide, rfl, ?_⟩
  have he : Frontend.generateNoteId ⟨2025, 1, 3, 14, 25, 30, 100⟩ =
      Frontend.generateNoteId ⟨2025, 1, 3, 14, 25, 30, 900⟩ := rfl
  rw [he]
  exact lt_irrefl _

/-- C8 (amended): note identifiers are monotone in creation time at the
identifier's own (whole-second) granularity: for wall-clock readings with
4-digit years and in-range components, if one creation is later than the
other *when truncated to whole seconds*, its generated identifier compares
strictly greater under string comparison.  (Within the same second the
generated identifiers coincide, per the counterexample.) -/
theorem claim_C8 (d1 d2 : Frontend.DateTime)
    (hy1l : 1000 ≤ d1.year) (hy1u : d1.year < 10000)
    (hy2l : 1000 ≤ d2.year) (hy2u : d2.year < 10000)
    (hmo1 : d1.month < 100) (hd1 : d1.day < 100) (hh1 : d1.hour < 100)
    (hmi1 : d1.minute < 100) (hs1 : d1.second < 100)
    (hmo2 : d2.month < 100) (hd2 : d2.day < 100) (hh2 : d2.hour < 100)
    (hmi2 : d2.minute < 100) (hs2 : d2.second < 100)
    (hlt : Frontend.secondTruncLt d1 d2) :
    Frontend.generateNoteId d1 < Frontend.generateNoteId d2 := by
  have hiff : Frontend.generateNoteId d1 < Frontend.generateNoteId d2 ↔
      List.Lex (· < ·) (Frontend.generateNoteId d1).data
        (Frontend.generateNoteId d2).data := by
    rw [String.lt_iff_toList_lt]
    exact Iff.rfl
  rw [hiff, Frontend.generateNoteId_data d1, Frontend.generateNoteId_data d2]
  have hylen : (toString d1.year).data.length = (toString d2.year).data.length := by
    rw [Frontend.year_len _ hy1l hy1u, Frontend.year_len _ hy2l hy2u]
  rw [Frontend.lex_append_block (toString d1.year).data (toString d2.year).data _ _ hylen]
  rcases hlt with h | ⟨e1, hrest⟩
  · exact Or.inl ((Frontend.year_lex _ _ hy1l hy1u hy2l hy2u).mpr h)
  refine Or.inr ⟨by rw [e1], ?_⟩
  rw [Frontend.lex_append_block _ _ _ _
    (by rw [Frontend.pad2_len _ hmo1, Frontend.pad2_len _ hmo2])]
  rcases hrest with h | ⟨e2, hrest⟩
  · exact Or.inl ((Frontend.pad2_lex _ _ hmo1 hmo2).mpr h)
  refine Or.inr ⟨by rw [e2], ?_⟩
  rw [Frontend.lex_append_block _ _ _ _
    (by rw [Frontend.pad2_len _ hd1, Frontend.pad2_len _ hd2])]
  rcases hrest with h | ⟨e3, hrest⟩
  · exact Or.inl ((Frontend.pad2_lex _ _ hd1 hd2).mpr h)
  refine Or.inr ⟨by rw [e3], ?_⟩
  rw [Frontend.lex_append_block _ _ _ _
    (by rw [Frontend.pad2_len _ hh1, Frontend.pad2_len _ hh2])]
  rcases hrest with h | ⟨e4, hrest⟩
  · exact Or.inl ((Frontend.pad2_lex _ _ hh1 hh2).mpr h)
  refine Or.inr ⟨by rw [e4], ?_⟩
  rw [Frontend.lex_append_block _ _ _ _
    (by rw [Frontend.pad2_len _ hmi1, Frontend.pad2_len _ hmi2])]
  rcases hrest with h | ⟨e5, h⟩
  · exact Or.inl ((Frontend.pad2_lex _ _ hmi1 hmi2).mpr h)
  refine Or.inr ⟨by rw [e5], ?_⟩
  exact (Frontend.pad2_lex _ _ hs1 hs2).mpr h

/-- Witness for the amended C8 at concrete inputs: one second later gives
a strictly greater identifier. -/
theorem claim_C8_witness :
    Frontend.generateNoteId ⟨2025, 1, 3, 14, 25, 30, 900⟩ <
      Frontend.generateNoteId ⟨2025, 1, 3, 14, 25, 31, 0⟩ :=
  claim_C8 ⟨2025, 1, 3, 14, 25, 30, 900⟩ ⟨2025, 1, 3, 14, 25, 31, 0⟩
    (by decide) (by decide) (by decide) (by decide) (by decide) (by decide)
    (by decide) (by decide) (by decide) (by decide) (by decide) (by decide)
    (by decide) (by decide) (by unfold Frontend.secondTruncLt; decide)

namespace Engine

theorem build_nodes (notes : List ENote) (exts : List PairExtractor) (K : Nat)
    (minScore : ℚ) :
    (build notes exts K minScore).nodes = (liveNotes notes).map (fun n => n.id) := rfl

theorem build_edges (notes : List ENote) (exts : List PairExtractor) (K : Nat)
    (minScore : ℚ) :
    (build notes exts K minScore).edges = (liveNotes notes).flatMap (fun n =>
      (keptPartners exts minScore K (liveNotes notes) n).map
        (fun c => (n.id, c.partner.id))) := rfl

/-- Filtering a flat-mapped edge list by source key, when keys are distinct,
recovers exactly one source's contribution. -/
theorem filter_flatMap_key {α : Type} (key : α → String) (F : α → List (String × String))
    (hF : ∀ a : α, ∀ e ∈ F a, e.1 = key a) :
    ∀ l : List α, (l.map key).Nodup → ∀ a ∈ l,
      (l.flatMap F).filter (fun e => e.1 = key a) = F a := by
  intro l
  induction l with
  | nil =>
      intro _ a ha
      exact absurd ha (List.not_mem_nil a)
  | cons b rest ih =>
      intro hnd a ha
      rw [List.map_cons, List.nodup_cons] at hnd
      obtain ⟨hb, hrest⟩ := hnd
      rw [List.flatMap_cons, List.filter_append]
      rcases List.mem_cons.mp ha with rfl | ha2
      · have h1 : (F a).filter (fun e => e.1 = key a) = F a := by
          rw [List.filter_eq_self]
          intro e he
          simp [hF a e he]
        have h2 : (rest.flatMap F).filter (fun e => e.1 = key a) = [] := by
          rw [List.filter_eq_nil_iff]
          intro e he hcontra
          rw [decide_eq_true_eq] at hcontra
          rcases List.mem_flatMap.mp he with ⟨m, hm, hem⟩
          have hm1 : e.1 = key m := hF m e hem
          refine hb ?_
          rw [← hcontra, hm1]
          exact List.mem_map_of_mem key hm
        rw [h1, h2, List.append_nil]
      · have h1 : (F b).filter (fun e => e.1 = key a) = [] := by
          rw [List.filter_eq_nil_iff]
          intro e he hcontra
          rw [decide_eq_true_eq] at hcontra
          have he1 := hF b e he
          have hmem : key a ∈ rest.map key := List.mem_map_of_mem key ha2
          rw [← hcontra, he1] at hmem
          exact hb hmem
        rw [h1, List.nil_append]
        exact ih hrest a ha2

end Engine

/-- C3: in every built graph with distinct live-note identifiers, a source
note's outgoing edges are exactly its kept top-K partner selection: there
are `min K #candidates` of them (so never more than K), every kept partner
is a candidate, and every kept partner beats every discarded candidate —
higher fused score, or equal score and a partner identifier that is not
larger (ties broken by target identifier ascending). -/
theorem claim_C3 (notes : List Engine.ENote) (exts : List Engine.PairExtractor)
    (K : Nat) (minScore : ℚ) (n : Engine.ENote)
    (hn : n ∈ Engine.liveNotes notes)
    (hnd : ((Engine.liveNotes notes).map (fun m => m.id)).Nodup) :
    Engine.outgoingEdges (Engine.build notes exts K minScore) n.id =
      (Engine.keptPartners exts minScore K (Engine.liveNotes notes) n).map
        (fun c => (n.id, c.partner.id)) ∧
    (Engine.outgoingEdges (Engine.build notes exts K minScore) n.id).length =
      min K (Engine.candsFor exts minScore (Engine.liveNotes notes) n).length ∧
    (∀ p ∈ Engine.keptPartners exts minScore K (Engine.liveNotes notes) n,
      p ∈ Engine.candsFor exts minScore (Engine.liveNotes notes) n) ∧
    (∀ p ∈ Engine.keptPartners exts minScore K (Engine.liveNotes notes) n,
      ∀ q ∈ Engine.candsFor exts minScore (Engine.liveNotes notes) n,
        q ∉ Engine.keptPartners exts minScore K (Engine.liveNotes notes) n →
        q.score < p.score ∨ (p.score = q.score ∧ p.partner.id ≤ q.partner.id)) := by
  have hmain : Engine.outgoingEdges (Engine.build notes exts K minScore) n.id =
      (Engine.keptPartners exts minScore K (Engine.liveNotes notes) n).map
        (fun c => (n.id, c.partner.id)) := by
    unfold Engine.outgoingEdges
    rw [Engine.build_edges]
    exact Engine.filter_flatMap_key (fun m => m.id)
      (fun m => (Engine.keptPartners exts minScore K (Engine.liveNotes notes) m).map
        (fun c => (m.id, c.partner.id)))
      (by
        intro a e he
        rcases List.mem_map.mp he with ⟨c, _, hce⟩
        rw [← hce])
      (Engine.liveNotes notes) hnd n hn
  refine ⟨hmain, ?_, ?_, ?_⟩
  · rw [hmain, List.length_map]
    unfold Engine.keptPartners
    rw [List.length_take, List.length_mergeSort]
  · intro p hp
    exact Engine.mem_keptPartners hp
  · intro p hp q hq hq2
    have := Engine.mergeSort_take_dominates Engine.candLE Engine.candLE_trans
      Engine.candLE_total (Engine.candsFor exts minScore (Engine.liveNotes notes) n) K
      hp hq hq2
    simpa [Engine.candLE, decide_eq_true_eq] using this

/-- Witness for C3 at a concrete two-note corpus with one extractor,
K = 1. -/
theorem claim_C3_witness :
    Engine.outgoingEdges
        (Engine.build [⟨"a", [], [], 0, 0, false⟩, ⟨"b", [], [], 0, 0, false⟩]
          [((1 : ℚ), fun _ _ => some 1)] 1 0)
        (Engine.ENote.mk "a" [] [] 0 0 false).id =
      (Engine.keptPartners [((1 : ℚ), fun _ _ => some 1)] 0 1
        (Engine.liveNotes [⟨"a", [], [], 0, 0, false⟩, ⟨"b", [], [], 0, 0, false⟩])
        ⟨"a", [], [], 0, 0, false⟩).map
        (fun c => ((Engine.ENote.mk "a" [] [] 0 0 false).id, c.partner.id)) ∧
    (Engine.outgoingEdges
        (Engine.build [⟨"a", [], [], 0, 0, false⟩, ⟨"b", [], [], 0, 0, false⟩]
          [((1 : ℚ), fun _ _ => some 1)] 1 0)
        (Engine.ENote.mk "a" [] [] 0 0 false).id).length =
      min 1 (Engine.candsFor [((1 : ℚ), fun _ _ => some 1)] 0
        (Engine.liveNotes [⟨"a", [], [], 0, 0, false⟩, ⟨"b", [], [], 0, 0, false⟩])
        ⟨"a", [], [], 0, 0, false⟩).length := by
  have h := claim_C3 [⟨"a", [], [], 0, 0, false⟩, ⟨"b", [], [], 0, 0, false⟩]
    [((1 : ℚ), fun _ _ => some 1)] 1 0 ⟨"a", [], [], 0, 0, false⟩
    (by decide) (by decide)
  exact ⟨h.1, h.2.1⟩
